import Mathlib

/-
Verification of the GameCube disc image codec (gc_disc.rs).

The embedding models the zero-copy Reader views as plain byte lists: a
view is the sequence of bytes it can still see, `offset` is List.drop,
`truncated` is List.take and `len` is List.length.  Machine integers are
natural numbers; u32 wrap-around is written out explicitly as % 4294967296
at the operations where the Rust code performs u32 arithmetic
(`as u32` casts, the wrapping `-=` on the layout cursor, and the
`(len + 31) & (u32::MAX - 31)` alignment mask).  Operations that panic in
Rust (slice indexing out of bounds, `expect`, explicit `panic!`) are
modelled with Option, `none` standing for the panic.
-/

/-- Bytes seen by a borrowed Reader view. -/
abbrev ByteSeq := List Nat

/-- GC_DISC_LENGTH: the fixed capacity of a GameCube disc image in bytes. -/
def GC_DISC_LENGTH : Nat := 1459978240

/-- The u32 modulus 2^32. -/
def U32MOD : Nat := 4294967296

/-- A `usize as u32` cast. -/
def toU32 (n : Nat) : Nat := n % U32MOD

/-- Wrapping u32 subtraction (for b < 2^32), modelling the `-=` on the
layout cursor. -/
def u32sub (a b : Nat) : Nat := (a + (U32MOD - b)) % U32MOD

/-- The expression `(len + 31) & (u32::max_value() - 31)` from
recalculate_offsets_and_lengths: round `len` up to a multiple of 32 using
u32 arithmetic.  4294967264 = 2^32 - 32 is the mask `u32::MAX - 31`. -/
def align32 (len : Nat) : Nat := ((len + 31) % U32MOD) &&& 4294967264

/-- FstEntryFile: the polymorphic payload of a directory-table entry.
`Pak` records the reader bytes handed to the LazySized pak at promotion
time, `ExternalFile` records the declared replacement size, `Unknown` is
the untouched byte range from the source buffer. -/
inductive FstEntryFile where
  | Pak : ByteSeq → FstEntryFile
  | ExternalFile : Nat → FstEntryFile
  | Unknown : ByteSeq → FstEntryFile
  deriving DecidableEq

instance : Inhabited FstEntryFile := ⟨FstEntryFile.Unknown []⟩

/-- FstEntryFile::size: Pak reports the size recorded at construction
(the reader length passed to LazySized), ExternalFile its declared size,
Unknown the length of its byte range. -/
def FstEntryFile.size : FstEntryFile → Nat
  | FstEntryFile.Pak r => r.length
  | FstEntryFile.ExternalFile n => n
  | FstEntryFile.Unknown r => r.length

/-- FstEntry: one 12-byte record of the file system table plus the
lazily resolved payload and name. -/
structure FstEntry where
  flags : Nat
  unused : Nat
  name_offset : Nat
  offset : Nat
  length : Nat
  file : FstEntryFile
  name : ByteSeq
  deriving DecidableEq

instance : Inhabited FstEntry := ⟨⟨0, 0, 0, 0, 0, default, []⟩⟩

/-- FstEntry::is_folder: the directory marker is flag byte 1. -/
def FstEntry.is_folder (e : FstEntry) : Bool := e.flags == 1

/-- FstEntry::file: directories expose no payload. -/
def FstEntry.filePayload (e : FstEntry) : Option FstEntryFile :=
  if e.is_folder then none else some e.file

/-- One byte of `make_ascii_lowercase`. -/
def lowerAscii (b : Nat) : Nat := if 65 ≤ b ∧ b ≤ 90 then b + 32 else b

/-- The bytes of "pak". -/
def pakExt : ByteSeq := [112, 97, 107]

/-- The three-byte lowercased extension `[name[len-3], name[len-2],
name[len-1]]` sniffed by guess_kind.  Only meaningful when the name has at
least three bytes. -/
def FstEntry.extBytes (e : FstEntry) : ByteSeq :=
  [lowerAscii (e.name.getD (e.name.length - 3) 0),
   lowerAscii (e.name.getD (e.name.length - 2) 0),
   lowerAscii (e.name.getD (e.name.length - 1) 0)]

/-- FstEntry::guess_kind.  `none` models a panic: either the out-of-bounds
indexing `name[len - 3]` when the name is shorter than three bytes, or the
explicit panic on an unexpected payload variant.  Promotion turns an
Unknown payload into a Pak constructed from the same reader (the LazySized
is built with size argument `reader.len()`); an entry that is already a
Pak is returned unchanged. -/
def FstEntry.guess_kind (e : FstEntry) : Option FstEntry :=
  if e.name.length < 3 then none
  else if e.extBytes = pakExt then
    match e.file with
    | FstEntryFile.Unknown r => some { e with file := FstEntryFile.Pak r }
    | FstEntryFile.Pak _ => some e
    | FstEntryFile.ExternalFile _ => none
  else some e

/-- Big-endian 16-bit field at byte index i of a view. -/
def beU16 (b : ByteSeq) (i : Nat) : Nat := 256 * b.getD i 0 + b.getD (i + 1) 0

/-- Big-endian 32-bit field at byte index i of a view. -/
def beU32 (b : ByteSeq) (i : Nat) : Nat :=
  16777216 * b.getD i 0 + 65536 * b.getD (i + 1) 0 + 256 * b.getD (i + 2) 0 + b.getD (i + 3) 0

/-- CStr::to_bytes of the nul-terminated string at the head of a view. -/
def readCStr (b : ByteSeq) : ByteSeq := b.takeWhile (fun x => !(x == 0))

/-- FstEntry::read: consume the 12 fixed bytes (flags u8, unused u8,
name_offset u16, offset u32, length u32, all big-endian), then bind the
literal fields: the payload is the Unknown byte range
`disc_start.offset(offset).truncated(length)` and the name is the CStr at
`string_table.offset(name_offset)`. -/
def FstEntry.read (src disc_start string_table : ByteSeq) : FstEntry :=
  let offset := beU32 src 4
  let length := beU32 src 8
  { flags := src.getD 0 0
    unused := src.getD 1 0
    name_offset := beU16 src 2
    offset := offset
    length := length
    file := FstEntryFile.Unknown ((disc_start.drop offset).take length)
    name := readCStr (string_table.drop (beU16 src 2)) }

/-- Sequential read of n 12-byte FstEntry records. -/
def readEntries (disc_start string_table : ByteSeq) : Nat → ByteSeq → List FstEntry
  | 0, _ => []
  | n + 1, src =>
      FstEntry.read src disc_start string_table
        :: readEntries disc_start string_table n (src.drop 12)

/-- FileSystemTable: the parsed entry list plus the reader view kept for
the string table (name pool). -/
structure FileSystemTable where
  fst_entries : List FstEntry
  string_table : ByteSeq
  deriving DecidableEq

/-- FileSystemTable::read.  The root entry is first parsed with the disc
start standing in for the still unknown string table; its length field is
the total entry count; the string table starts 12 * count bytes into the
table; all count entries are re-read with the correct string table; the
string table view is then truncated to `total_size - fst_len` bytes
(exactly as the source subtracts the entry count, not the byte size of
the entries). -/
def FileSystemTable.read (disc_start : ByteSeq) (fst_offset total_size : Nat) :
    FileSystemTable :=
  let fst_start := disc_start.drop fst_offset
  let root_fst_entry := FstEntry.read fst_start disc_start disc_start
  let fst_len := root_fst_entry.length
  let string_table_start := fst_start.drop (fst_len * 12)
  { fst_entries := readEntries disc_start string_table_start fst_len fst_start
    string_table := string_table_start.take (total_size - fst_len) }

/-- Indices of the non-folder entries, in table order: the list built by
`fst_entries.iter_mut().filter(|e| !e.is_folder())`. -/
def fileIdxs (tbl : List FstEntry) : List Nat :=
  (List.range tbl.length).filter (fun i => !(tbl.getD i default).is_folder)

/-- The comparator `l.offset.cmp(&r.offset).reverse()` as a total
preorder on indices: i may precede j when j's offset is at most i's
offset. -/
def descOffsetP (tbl : List FstEntry) (i j : Nat) : Prop :=
  (tbl.getD j default).offset ≤ (tbl.getD i default).offset

instance (tbl : List FstEntry) : DecidableRel (descOffsetP tbl) :=
  fun _ _ => Nat.decLe _ _

instance (tbl : List FstEntry) : IsTotal Nat (descOffsetP tbl) :=
  ⟨fun i j => Nat.le_total (tbl.getD j default).offset (tbl.getD i default).offset⟩

instance (tbl : List FstEntry) : IsTrans Nat (descOffsetP tbl) :=
  ⟨fun _ _ _ hab hbc => Nat.le_trans hbc hab⟩

/-- The processing order of recalculate_offsets_and_lengths: the
non-folder indices stably sorted in descending order of their current
offsets.  Vec::sort_by is a stable sort, so it is modelled by the stable
insertionSort with the same comparator. -/
def sortedFileIdxs (tbl : List FstEntry) : List Nat :=
  List.insertionSort (descOffsetP tbl) (fileIdxs tbl)

/-- One planned assignment: the entry index together with the new offset
and new length stored into it. -/
structure Placement where
  idx : Nat
  newOffset : Nat
  newLength : Nat
  deriving DecidableEq

/-- The cursor walk of recalculate_offsets_and_lengths: for each index in
processing order, refresh the length from the payload size (`as u32`),
subtract the 32-byte-aligned length from the running cursor with u32
wrap-around, and record the cursor as the new offset. -/
def planGo (tbl : List FstEntry) : List Nat → Nat → List Placement
  | [], _ => []
  | i :: rest, cursor =>
      let len := toU32 (FstEntryFile.size (tbl.getD i default).file)
      let cursor2 := u32sub cursor (align32 len)
      ⟨i, cursor2, len⟩ :: planGo tbl rest cursor2

/-- The full plan: the cursor starts at the image capacity. -/
def plan (tbl : List FstEntry) : List Placement :=
  planGo tbl (sortedFileIdxs tbl) GC_DISC_LENGTH

/-- The placement recorded for index i, if any.  Each non-folder index
occurs exactly once in the plan, so this reproduces the single in-place
mutation the Rust loop performs through its sorted mutable references. -/
def planLookup (ps : List Placement) (i : Nat) : Option Placement :=
  ps.find? (fun p => p.idx == i)

/-- Store the planned offsets and lengths back into the table, walking the
entries with their indices. -/
def applyPlan (ps : List Placement) : List FstEntry → Nat → List FstEntry
  | [], _ => []
  | e :: rest, i =>
      (match planLookup ps i with
        | some p => { e with offset := p.newOffset, length := p.newLength }
        | none => e) :: applyPlan ps rest (i + 1)

/-- FileSystemTable::recalculate_offsets_and_lengths on the entry list. -/
def recalc (tbl : List FstEntry) : List FstEntry :=
  applyPlan (plan tbl) tbl 0

/-- GcDiscHeader: the fixed-width header record. -/
structure GcDiscHeader where
  console_id : Nat
  game_code : ByteSeq
  country_code : Nat
  maker_code : ByteSeq
  disc_id : Nat
  version : Nat
  audio_streaming : Nat
  stream_buffer_size : Nat
  unused0 : ByteSeq
  magic : Nat
  game_name : ByteSeq
  debug_mon_offset : Nat
  debug_mon_load_addr : Nat
  unused1 : ByteSeq
  main_dol_offset : Nat
  fst_offset : Nat
  fst_length : Nat
  fst_max_length : Nat
  user_position : Nat
  user_length : Nat
  unused2 : Nat
  unused3 : Nat
  deriving DecidableEq

/-- GcDiscApploader. -/
structure GcDiscApploader where
  date : ByteSeq
  entrypoint : Nat
  size : Nat
  trailer_size : Nat
  code : ByteSeq
  deriving DecidableEq

/-- GcDisc: header, reserved header-info block, apploader and file
system table. -/
structure GcDisc where
  header : GcDiscHeader
  header_info : ByteSeq
  apploader : GcDiscApploader
  file_system_table : FileSystemTable
  deriving DecidableEq

/-- The bytes of "default.dol". -/
def defaultDol : ByteSeq := [100, 101, 102, 97, 117, 108, 116, 46, 100, 111, 108]

/-- The state transformation of GcDisc::write: recalculate the layout,
look up the first entry named default.dol in the (recalculated) table and
store its new offset into the header.  `none` models the
`expect("Couldn't find default.dol")` panic.  The byte emission into the
seekable sink (write_files, then header, header info, apploader and
table) is not part of the returned state. -/
def GcDisc.write (d : GcDisc) : Option GcDisc :=
  let fst : FileSystemTable :=
    { d.file_system_table with fst_entries := recalc d.file_system_table.fst_entries }
  match fst.fst_entries.find? (fun e => e.name == defaultDol) with
  | none => none
  | some e =>
      some { d with
              header := { d.header with main_dol_offset := e.offset }
              file_system_table := fst }

/-- The 32-byte-aligned planned size of the entry at index i: the amount
the layout cursor moves when this entry is placed. -/
def alignedSize (tbl : List FstEntry) (i : Nat) : Nat :=
  align32 (toU32 (FstEntryFile.size (tbl.getD i default).file))

/-- A concrete 56-byte disc fragment: a file system table at offset 0
(root directory entry with count 2, one file entry named a.dat at disc
offset 32 with length 4, then the 7-byte name pool), followed by filler
bytes standing for file content. -/
def discA : ByteSeq :=
  [1, 0, 0, 0, 0, 0, 0, 0, 0, 0, 0, 2,
   0, 0, 0, 1, 0, 0, 0, 32, 0, 0, 0, 4,
   0, 97, 46, 100, 97, 116, 0] ++ List.replicate 25 9

/-- The entry list parsed from discA with fst_offset 0 and
fst_length 31. -/
def tblA : List FstEntry := (FileSystemTable.read discA 0 31).fst_entries

/-- A one-entry table whose file payload has been replaced by an external
file of 1459978241 bytes, one byte more than the whole image capacity. -/
def tbl5 : List FstEntry :=
  [⟨0, 0, 0, 0, 0, FstEntryFile.ExternalFile 1459978241, [97, 46, 100, 111, 108]⟩]

/-- A two-file table used to exercise the layout planner: files at
previous offsets 100 (length 5) and 200 (length 40). -/
def tbl3 : List FstEntry :=
  [⟨0, 0, 0, 100, 5, FstEntryFile.Unknown [1, 2, 3, 4, 5], [97]⟩,
   ⟨0, 0, 2, 200, 40, FstEntryFile.Unknown (List.replicate 40 0), [98]⟩]

/-- A file entry named a.pak with an untouched Raw payload. -/
def e6w : FstEntry := ⟨0, 0, 0, 0, 3, FstEntryFile.Unknown [1, 2, 3], [97, 46, 112, 97, 107]⟩

/-- The promotion of e6w: the same entry with its payload reinterpreted
as a Pak container. -/
def e6b : FstEntry := ⟨0, 0, 0, 0, 3, FstEntryFile.Pak [1, 2, 3], [97, 46, 112, 97, 107]⟩

/-- A directory entry (flag byte 1) named abc. -/
def eDir : FstEntry := ⟨1, 0, 0, 0, 0, FstEntryFile.Unknown [], [97, 98, 99]⟩

/-- An all-zero header used to build a small concrete disc. -/
def header0 : GcDiscHeader :=
  ⟨0, [], 0, [], 0, 0, 0, 0, [], 3241320253, [], 0, 0, [], 0, 0, 0, 0, 0, 0, 0, 0⟩

/-- A trivial apploader used to build a small concrete disc. -/
def apl0 : GcDiscApploader := ⟨[], 0, 0, 0, []⟩

/-- A file entry named default.dol at previous offset 100 with a 4-byte
payload. -/
def dolE : FstEntry := ⟨0, 0, 0, 100, 4, FstEntryFile.Unknown [5, 6, 7, 8], defaultDol⟩

/-- A small concrete disc holding a root directory entry and the
default.dol file entry. -/
def d8 : GcDisc :=
  ⟨header0, [], apl0, ⟨[⟨1, 0, 0, 0, 2, FstEntryFile.Unknown [], []⟩, dolE], []⟩⟩

/-- The default.dol entry after layout recalculation: length 4 aligns to
32, so it is placed 32 bytes below the image capacity. -/
def e8c : FstEntry := { dolE with offset := 1459978208, length := 4 }

lemma land_mask_eq (x : Nat) (hx : x < 4294967296) : x &&& 4294967264 = 32 * (x / 32) := by
  have hm : (4294967264 : Nat) = (2 ^ 27 - 1) <<< 5 := by
    rw [Nat.shiftLeft_eq]
    norm_num
  have hr : 32 * (x / 32) = (x >>> 5) <<< 5 := by
    rw [Nat.shiftLeft_eq, Nat.shiftRight_eq_div_pow]
    norm_num
    omega
  apply Nat.eq_of_testBit_eq
  intro i
  rw [hm, hr, Nat.testBit_and, Nat.testBit_shiftLeft, Nat.testBit_shiftLeft,
    Nat.testBit_shiftRight, Nat.testBit_two_pow_sub_one]
  by_cases h5 : 5 ≤ i
  · have h5d : decide (i ≥ 5) = true := by simpa using h5
    have hplus : 5 + (i - 5) = i := by omega
    rw [hplus, h5d]
    by_cases h32 : i < 32
    · have : decide (i - 5 < 27) = true := by simp; omega
      rw [this]
      simp
    · have hbf : x.testBit i = false := by
        apply Nat.testBit_lt_two_pow
        calc x < 4294967296 := hx
          _ = 2 ^ 32 := by norm_num
          _ ≤ 2 ^ i := Nat.pow_le_pow_right (by norm_num) (by omega)
      simp [hbf]
  · have h5d : decide (i ≥ 5) = false := by simpa using h5
    simp [h5d]

lemma align32_eq (l : Nat) (h : l + 31 < 4294967296) : align32 l = 32 * ((l + 31) / 32) := by
  unfold align32 U32MOD
  rw [Nat.mod_eq_of_lt h]
  exact land_mask_eq _ h

lemma align32_spec (l : Nat) (h : l + 31 < 4294967296) :
    l ≤ align32 l ∧ align32 l ≤ l + 31 ∧ align32 l % 32 = 0 := by
  rw [align32_eq l h]
  omega

lemma u32sub_eq (a b : Nat) (hb : b ≤ a) (ha : a < 4294967296) : u32sub a b = a - b := by
  unfold u32sub U32MOD
  omega

lemma planGo_map_idx (tbl : List FstEntry) :
    ∀ (l : List Nat) (c : Nat), (planGo tbl l c).map Placement.idx = l
  | [], _ => rfl
  | i :: rest, c => by
      simp only [planGo, List.map_cons]
      rw [planGo_map_idx tbl rest]

lemma planGo_newLength (tbl : List FstEntry) :
    ∀ (l : List Nat) (c : Nat) (p : Placement), p ∈ planGo tbl l c →
      p.newLength = toU32 (FstEntryFile.size (tbl.getD p.idx default).file)
  | [], _, p, hp => by simp [planGo] at hp
  | i :: rest, c, p, hp => by
      simp only [planGo, List.mem_cons] at hp
      rcases hp with hp | hp
      · subst hp
        rfl
      · exact planGo_newLength tbl rest _ p hp

lemma applyPlan_length (ps : List Placement) :
    ∀ (l : List FstEntry) (k : Nat), (applyPlan ps l k).length = l.length
  | [], _ => rfl
  | e :: rest, k => by
      simp only [applyPlan, List.length_cons]
      rw [applyPlan_length ps rest]

lemma applyPlan_getD (ps : List Placement) :
    ∀ (l : List FstEntry) (k i : Nat), i < l.length →
      (applyPlan ps l k).getD i default =
        (match planLookup ps (k + i) with
          | some p => { l.getD i default with offset := p.newOffset, length := p.newLength }
          | none => l.getD i default)
  | [], _, i, hi => by simp at hi
  | e :: rest, k, 0, hi => by
      simp [applyPlan]
  | e :: rest, k, i + 1, hi => by
      simp only [applyPlan, List.getD_cons_succ]
      rw [applyPlan_getD ps rest (k + 1) i (by simpa using hi)]
      have : k + 1 + i = k + (i + 1) := by omega
      rw [this]

lemma recalc_length (tbl : List FstEntry) : (recalc tbl).length = tbl.length :=
  applyPlan_length _ _ _

lemma recalc_getD (tbl : List FstEntry) (i : Nat) (hi : i < tbl.length) :
    (recalc tbl).getD i default =
      (match planLookup (plan tbl) i with
        | some p => { tbl.getD i default with offset := p.newOffset, length := p.newLength }
        | none => tbl.getD i default) := by
  have h := applyPlan_getD (plan tbl) tbl 0 i hi
  simpa [recalc] using h

lemma mem_sortedFileIdxs (tbl : List FstEntry) (i : Nat) :
    i ∈ sortedFileIdxs tbl ↔ i < tbl.length ∧ (tbl.getD i default).is_folder = false := by
  unfold sortedFileIdxs fileIdxs
  rw [List.mem_insertionSort, List.mem_filter, List.mem_range]
  simp

lemma folder_planLookup_none (tbl : List FstEntry) (i : Nat)
    (hf : (tbl.getD i default).is_folder = true) : planLookup (plan tbl) i = none := by
  unfold planLookup
  rw [List.find?_eq_none]
  intro p hp
  simp only [beq_iff_eq]
  intro hpi
  have hmem : p.idx ∈ (plan tbl).map Placement.idx := List.mem_map_of_mem _ hp
  rw [plan, planGo_map_idx] at hmem
  rw [mem_sortedFileIdxs] at hmem
  rw [hpi] at hmem
  rw [hmem.2] at hf
  cases hf

lemma nonfolder_placement (tbl : List FstEntry) (i : Nat) (hi : i < tbl.length)
    (hf : (tbl.getD i default).is_folder = false) :
    ∃ p, planLookup (plan tbl) i = some p ∧ p ∈ plan tbl ∧ p.idx = i := by
  have hmem : i ∈ (plan tbl).map Placement.idx := by
    rw [plan, planGo_map_idx]
    exact (mem_sortedFileIdxs tbl i).mpr ⟨hi, hf⟩
  obtain ⟨p0, hp0, hp0i⟩ := List.mem_map.mp hmem
  have hsome : (planLookup (plan tbl) i).isSome := by
    unfold planLookup
    rw [List.find?_isSome]
    exact ⟨p0, hp0, by simp [hp0i]⟩
  obtain ⟨p, hp⟩ := Option.isSome_iff_exists.mp hsome
  refine ⟨p, hp, List.mem_of_find?_eq_some hp, ?_⟩
  have := List.find?_some hp
  simpa using this

lemma planGo_inv (tbl : List FstEntry) (l : List Nat) :
    ∀ (c : Nat), c % 32 = 0 → c < 4294967296 →
      (∀ i ∈ l, FstEntryFile.size (tbl.getD i default).file + 31 < 4294967296) →
      (l.map (alignedSize tbl)).sum ≤ c →
      (∀ p ∈ planGo tbl l c,
          p.newOffset % 32 = 0 ∧ p.newOffset ≤ c ∧ p.newLength + 31 < 4294967296) ∧
      (∀ p, (planGo tbl l c).head? = some p → p.newOffset + align32 p.newLength = c) ∧
      List.Chain' (fun a b =>
        b.newOffset + align32 b.newLength = a.newOffset ∧
        b.newLength + 31 < 4294967296) (planGo tbl l c) := by
  induction l with
  | nil =>
      intro c _ _ _ _
      refine ⟨?_, ?_, ?_⟩ <;> simp [planGo]
  | cons i rest ih =>
      intro c hc32 hclt hsz hsum
      have hsi : FstEntryFile.size (tbl.getD i default).file + 31 < 4294967296 :=
        hsz i (List.mem_cons_self i rest)
      set s := FstEntryFile.size (tbl.getD i default).file with hs
      have htou : toU32 s = s := Nat.mod_eq_of_lt (by unfold U32MOD; omega)
      have hal : alignedSize tbl i = align32 s := by
        unfold alignedSize
        rw [← hs, htou]
      have hspec := align32_spec s hsi
      have hsum' : align32 s + (rest.map (alignedSize tbl)).sum ≤ c := by
        rw [← hal]
        simpa using hsum
      have hac : align32 s ≤ c := by omega
      have hcur : u32sub c (align32 s) = c - align32 s :=
        u32sub_eq c (align32 s) hac hclt
      have hc2lt : c - align32 s < 4294967296 := by omega
      have hc232 : (c - align32 s) % 32 = 0 := by omega
      obtain ⟨ihA, ihH, ihC⟩ := ih (c - align32 s) hc232 hc2lt
        (fun j hj => hsz j (List.mem_cons_of_mem i hj)) (by omega)
      have hunf : planGo tbl (i :: rest) c =
          ⟨i, c - align32 s, s⟩ :: planGo tbl rest (c - align32 s) := by
        simp only [planGo]
        rw [← hs, htou, hcur]
      rw [hunf]
      refine ⟨?_, ?_, ?_⟩
      · intro p hp
        rcases List.mem_cons.mp hp with hp | hp
        · subst hp
          refine ⟨hc232, ?_, hsi⟩
          show c - align32 s ≤ c
          omega
        · obtain ⟨h1, h2, h3⟩ := ihA p hp
          exact ⟨h1, by omega, h3⟩
      · intro p hp
        simp only [List.head?_cons, Option.some_inj] at hp
        subst hp
        show c - align32 s + align32 s = c
        omega
      · rw [List.chain'_cons']
        refine ⟨?_, ihC⟩
        intro b hb
        have hbmem : b ∈ planGo tbl rest (c - align32 s) := List.mem_of_mem_head? hb
        have hbh := ihH b (by simpa using hb)
        exact ⟨hbh, (ihA b hbmem).2.2⟩

lemma getD_of_len_le {l : List FstEntry} {i : Nat} (h : l.length ≤ i) :
    l.getD i default = default := by
  rw [List.getD_eq_getElem?_getD, List.getElem?_eq_none h]
  rfl

lemma recalc_preserves_core (tbl : List FstEntry) (i : Nat) :
    ((tbl.getD i default).is_folder = true →
      (recalc tbl).getD i default = tbl.getD i default) ∧
    ((recalc tbl).getD i default).flags = (tbl.getD i default).flags ∧
    ((recalc tbl).getD i default).unused = (tbl.getD i default).unused ∧
    ((recalc tbl).getD i default).name_offset = (tbl.getD i default).name_offset ∧
    ((recalc tbl).getD i default).name = (tbl.getD i default).name ∧
    ((recalc tbl).getD i default).file = (tbl.getD i default).file := by
  by_cases hi : i < tbl.length
  · rw [recalc_getD tbl i hi]
    cases hp : planLookup (plan tbl) i with
    | none => simp
    | some p =>
        refine ⟨?_, rfl, rfl, rfl, rfl, rfl⟩
        intro hf
        rw [folder_planLookup_none tbl i hf] at hp
        cases hp
  · have h1 : (recalc tbl).getD i default = default :=
      getD_of_len_le (by rw [recalc_length]; omega)
    have h2 : tbl.getD i default = default := getD_of_len_le (by omega)
    rw [h1, h2]
    simp

lemma forall_mem_iff_getD {P : FstEntry → Prop} (l : List FstEntry) :
    (∀ e ∈ l, P e) ↔ (∀ i, i < l.length → P (l.getD i default)) := by
  constructor
  · intro h i hi
    rw [List.getD_eq_getElem?_getD, List.getElem?_eq_getElem hi]
    exact h _ (List.getElem_mem hi)
  · intro h e he
    obtain ⟨i, hi, rfl⟩ := List.mem_iff_getElem.mp he
    have := h i hi
    rwa [List.getD_eq_getElem?_getD, List.getElem?_eq_getElem hi] at this

lemma recalc_name_forall (tbl : List FstEntry) (Q : ByteSeq → Prop) :
    (∀ x ∈ recalc tbl, Q x.name) ↔ (∀ e ∈ tbl, Q e.name) := by
  rw [forall_mem_iff_getD, forall_mem_iff_getD, recalc_length]
  constructor
  · intro h i hi
    have := h i hi
    rwa [(recalc_preserves_core tbl i).2.2.2.2.1] at this
  · intro h i hi
    rw [(recalc_preserves_core tbl i).2.2.2.2.1]
    exact h i hi

/-- C1 counterexample: the table parsed from the concrete valid disc
fragment discA has its file entry at offset 32, but after the layout
recalculation performed by GcDisc::write the recomputed offset is
1459978208 (the file is repacked against the end of the image), so the
recomputed offset is not numerically equal to the original and the
serialized image cannot reproduce the original buffer byte-for-byte. -/
theorem read_write_offsets_differ :
    (tblA.getD 1 default).offset = 32 ∧
    ((recalc tblA).getD 1 default).offset = 1459978208 ∧
    ¬ ((recalc tblA).getD 1 default).offset = (tblA.getD 1 default).offset := by
  decide

/-- C1 amended: for a parsed image on which no entry payload was mutated
(every payload still reports exactly the entry's recorded length), the
layout recalculation preserves every entry's length field; the offsets,
however, follow the end-packed layout and in general differ from the
originals. -/
theorem recalc_preserves_lengths (tbl : List FstEntry)
    (h : ∀ e ∈ tbl, toU32 (FstEntryFile.size e.file) = e.length) (i : Nat) :
    ((recalc tbl).getD i default).length = (tbl.getD i default).length := by
  by_cases hi : i < tbl.length
  · rw [recalc_getD tbl i hi]
    cases hp : planLookup (plan tbl) i with
    | none => rfl
    | some p =>
        show p.newLength = (tbl.getD i default).length
        have hmem : p ∈ plan tbl := List.mem_of_find?_eq_some hp
        have hidx : p.idx = i := by
          have := List.find?_some hp
          simpa using this
        have hlen := planGo_newLength tbl (sortedFileIdxs tbl) GC_DISC_LENGTH p hmem
        rw [hlen, hidx]
        have hin : tbl.getD i default ∈ tbl := by
          rw [List.getD_eq_getElem?_getD, List.getElem?_eq_getElem hi]
          exact List.getElem_mem hi
        exact h _ hin
  · have h1 : (recalc tbl).getD i default = default :=
      getD_of_len_le (by rw [recalc_length]; omega)
    have h2 : tbl.getD i default = default := getD_of_len_le (by omega)
    rw [h1, h2]

/-- Witness for the amended C1 theorem at the concrete parsed table
tblA, whose payloads are untouched after parsing. -/
theorem recalc_preserves_lengths_witness :
    ((recalc tblA).getD 1 default).length = (tblA.getD 1 default).length :=
  recalc_preserves_lengths tblA (by decide) 1

/-- C2 evidence: on the concrete disc fragment discA the parsed table has
root entry count 2, the name pool correctly starts at byte 24 = 2 * 12 of
the directory table, but it spans 29 = 31 - 2 bytes (the code subtracts
the entry count from the byte length), not the 7 = 31 - 2 * 12 bytes the
specification states. -/
theorem name_pool_span_subtracts_count :
    (FileSystemTable.read discA 0 31).fst_entries.length = 2 ∧
    (FileSystemTable.read discA 0 31).string_table = (discA.drop (2 * 12)).take 29 ∧
    (FileSystemTable.read discA 0 31).string_table.length = 29 ∧
    ¬ (FileSystemTable.read discA 0 31).string_table.length = 31 - 2 * 12 := by
  decide

/-- C5 evidence: for the concrete one-entry table tbl5 whose planned
aligned content (1459978272 bytes) exceeds the image capacity, the layout
recalculation raises no error at all: the u32 cursor wraps around and the
entry is assigned offset 4294967264, far beyond the end of the image, and
writing simply proceeds. -/
theorem capacity_excess_wraps_silently :
    GC_DISC_LENGTH < alignedSize tbl5 0 ∧
    ((recalc tbl5).getD 0 default).offset = 4294967264 ∧
    GC_DISC_LENGTH < ((recalc tbl5).getD 0 default).offset := by
  decide

/-- C10: recalculate_offsets_and_lengths only rewrites the offset and
length fields of file entries: a directory entry is returned completely
unchanged, and every entry keeps its flags, unused byte, name offset,
name and payload. -/
theorem recalc_frame (tbl : List FstEntry) (i : Nat) :
    ((tbl.getD i default).is_folder = true →
      (recalc tbl).getD i default = tbl.getD i default) ∧
    ((recalc tbl).getD i default).flags = (tbl.getD i default).flags ∧
    ((recalc tbl).getD i default).unused = (tbl.getD i default).unused ∧
    ((recalc tbl).getD i default).name_offset = (tbl.getD i default).name_offset ∧
    ((recalc tbl).getD i default).name = (tbl.getD i default).name ∧
    ((recalc tbl).getD i default).file = (tbl.getD i default).file :=
  recalc_preserves_core tbl i

/-- Witness for the C10 theorem: the root directory entry of the parsed
table tblA is untouched by recalculation. -/
theorem recalc_frame_witness :
    (tblA.getD 0 default).is_folder = true ∧
    (recalc tblA).getD 0 default = tblA.getD 0 default :=
  ⟨by decide, (recalc_frame tblA 0).1 (by decide)⟩

/-- C3: when every payload size fits in u32 after alignment and the total
aligned content fits in the image, every file entry's recomputed offset
is a multiple of 32 and at most the image capacity; the first placed file
sits exactly one aligned length below the capacity (the cursor starts at
GC_DISC_LENGTH); and along the placement order each next offset is
obtained by subtracting the aligned length from the previous offset, so
offsets decrease monotonically and the gap between the end of one file
and the start of the previously placed one is between 0 and 31 bytes. -/
theorem recalc_aligned_layout (tbl : List FstEntry)
    (hsz : ∀ i ∈ sortedFileIdxs tbl,
      FstEntryFile.size (tbl.getD i default).file + 31 < 4294967296)
    (hcap : ((sortedFileIdxs tbl).map (alignedSize tbl)).sum ≤ GC_DISC_LENGTH) :
    (∀ i, i < tbl.length → (tbl.getD i default).is_folder = false →
      ((recalc tbl).getD i default).offset % 32 = 0 ∧
      ((recalc tbl).getD i default).offset ≤ GC_DISC_LENGTH) ∧
    (∀ p, (plan tbl).head? = some p →
      p.newOffset + align32 p.newLength = GC_DISC_LENGTH) ∧
    List.Chain' (fun a b =>
      b.newOffset + align32 b.newLength = a.newOffset ∧
      b.newOffset ≤ a.newOffset ∧
      b.newOffset + b.newLength ≤ a.newOffset ∧
      a.newOffset - (b.newOffset + b.newLength) ≤ 31) (plan tbl) := by
  have hd32 : GC_DISC_LENGTH % 32 = 0 := by decide
  have hdlt : GC_DISC_LENGTH < 4294967296 := by decide
  obtain ⟨hA, hH, hC⟩ :=
    planGo_inv tbl (sortedFileIdxs tbl) GC_DISC_LENGTH hd32 hdlt hsz hcap
  refine ⟨?_, hH, ?_⟩
  · intro i hi hf
    obtain ⟨p, hp, hpmem, _⟩ := nonfolder_placement tbl i hi hf
    rw [recalc_getD tbl i hi, hp]
    exact ⟨(hA p hpmem).1, (hA p hpmem).2.1⟩
  · refine hC.imp ?_
    intro a b hab
    obtain ⟨heq, hfit⟩ := hab
    obtain ⟨hle, hge, _⟩ := align32_spec b.newLength hfit
    exact ⟨heq, by omega, by omega, by omega⟩

/-- Witness for the C3 theorem at the concrete two-file table tbl3: the
entry previously at offset 100 is placed at a 32-aligned offset below the
capacity. -/
theorem recalc_aligned_layout_witness :
    ((recalc tbl3).getD 0 default).offset % 32 = 0 ∧
    ((recalc tbl3).getD 0 default).offset ≤ GC_DISC_LENGTH :=
  (recalc_aligned_layout tbl3 (by decide) (by decide)).1 0 (by decide) (by decide)

/-- C4: the layout planner walks the placements in the order given by
sortedFileIdxs, which lists the non-folder entries in descending order of
their previous offsets, and entries with equal previous offsets keep
their original relative table order (the sort is stable: filtering the
processing order by any fixed offset value gives back exactly the
original filtered order). -/
theorem recalc_processing_order (tbl : List FstEntry) :
    ((plan tbl).map Placement.idx = sortedFileIdxs tbl) ∧
    (sortedFileIdxs tbl).Pairwise
      (fun i j => (tbl.getD j default).offset ≤ (tbl.getD i default).offset) ∧
    (∀ v : Nat,
      (sortedFileIdxs tbl).filter (fun i => (tbl.getD i default).offset == v) =
        (fileIdxs tbl).filter (fun i => (tbl.getD i default).offset == v)) := by
  refine ⟨planGo_map_idx tbl _ _, ?_, ?_⟩
  · exact List.sorted_insertionSort (descOffsetP tbl) (fileIdxs tbl)
  · intro v
    set p : Nat → Bool := fun i => (tbl.getD i default).offset == v with hpdef
    have hpmem : ∀ i ∈ (fileIdxs tbl).filter p, (tbl.getD i default).offset = v := by
      intro i hi
      have := List.of_mem_filter hi
      rw [hpdef] at this
      simpa using this
    have hpair : ((fileIdxs tbl).filter p).Pairwise (descOffsetP tbl) := by
      apply List.pairwise_of_forall_mem_list
      intro a ha b hb
      unfold descOffsetP
      rw [hpmem a ha, hpmem b hb]
    have hsub : List.Sublist ((fileIdxs tbl).filter p) (sortedFileIdxs tbl) :=
      List.sublist_insertionSort hpair (List.filter_sublist _)
    have hself : ((fileIdxs tbl).filter p).filter p = (fileIdxs tbl).filter p := by
      rw [List.filter_eq_self]
      intro a ha
      exact List.of_mem_filter ha
    have hsub2 : List.Sublist ((fileIdxs tbl).filter p) ((sortedFileIdxs tbl).filter p) := by
      rw [← hself]
      exact List.Sublist.filter p hsub
    have hperm : List.Perm ((sortedFileIdxs tbl).filter p) ((fileIdxs tbl).filter p) :=
      (List.perm_insertionSort (descOffsetP tbl) (fileIdxs tbl)).filter p
    exact (hsub2.eq_of_length hperm.length_eq.symm).symm

lemma guess_kind_of_pak (e : FstEntry) (h3 : ¬ e.name.length < 3)
    (hq : ∃ q, e.file = FstEntryFile.Pak q) : FstEntry.guess_kind e = some e := by
  obtain ⟨q, hq⟩ := hq
  unfold FstEntry.guess_kind
  rw [if_neg h3]
  by_cases hext : FstEntry.extBytes e = pakExt
  · rw [if_pos hext, hq]
  · rw [if_neg hext]

lemma guess_kind_cases (e e2 : FstEntry) (h : FstEntry.guess_kind e = some e2) :
    e2 = e ∨
      (¬ e.name.length < 3 ∧ FstEntry.extBytes e = pakExt ∧
        ∃ r, e.file = FstEntryFile.Unknown r ∧ e2 = { e with file := FstEntryFile.Pak r }) := by
  unfold FstEntry.guess_kind at h
  by_cases h3 : e.name.length < 3
  · rw [if_pos h3] at h
    cases h
  · rw [if_neg h3] at h
    by_cases hext : FstEntry.extBytes e = pakExt
    · rw [if_pos hext] at h
      cases hfile : e.file with
      | Pak r =>
          rw [hfile] at h
          left
          exact (Option.some_inj.mp h).symm
      | ExternalFile n =>
          rw [hfile] at h
          cases h
      | Unknown r =>
          rw [hfile] at h
          right
          exact ⟨h3, hext, r, rfl, (Option.some_inj.mp h).symm⟩
    · rw [if_neg hext] at h
      left
      exact (Option.some_inj.mp h).symm

/-- C6: promotion via guess_kind is idempotent: whenever one call
succeeds with result e2, a second call on e2 returns e2 unchanged; and a
call on an entry whose payload is already a Pak container (whose name is
long enough to be indexed, as any promoted name is) is a no-op. -/
theorem guess_kind_idempotent (e e2 : FstEntry) :
    (FstEntry.guess_kind e = some e2 → FstEntry.guess_kind e2 = some e2) ∧
    (3 ≤ e.name.length → (∃ r, e.file = FstEntryFile.Pak r) →
      FstEntry.guess_kind e = some e) := by
  constructor
  · intro h
    rcases guess_kind_cases e e2 h with he | ⟨h3, hext, r, hfile, he2⟩
    · rw [he] at h ⊢
      exact h
    · subst he2
      exact guess_kind_of_pak _ h3 ⟨r, rfl⟩
  · intro h3 hq
    exact guess_kind_of_pak e (Nat.not_lt.mpr h3) hq

/-- Witness for the C6 theorem: the a.pak entry e6w is promoted to the
container entry e6b, and a second call leaves e6b unchanged. -/
theorem guess_kind_idempotent_witness :
    FstEntry.guess_kind e6w = some e6b ∧ FstEntry.guess_kind e6b = some e6b :=
  ⟨by decide, (guess_kind_idempotent e6w e6b).1 (by decide)⟩

/-- C7 counterexample: the directory entry eDir (flag byte 1) does not
make guess_kind fail: the call succeeds and returns the entry
unchanged. -/
theorem guess_kind_folder_does_not_fail :
    FstEntry.is_folder eDir = true ∧ FstEntry.guess_kind eDir = some eDir := by
  decide

/-- C7 amended: guess_kind never inspects the directory flag; on a
directory entry whose name is at least three bytes long and whose payload
has not been replaced by an external file, it succeeds exactly as it
would on a file entry (the only fatal cases are a short name or a pak
extension over an ExternalFile payload). -/
theorem guess_kind_on_folder_succeeds (e : FstEntry)
    (_hf : e.is_folder = true) (h3 : 3 ≤ e.name.length)
    (hext : ∀ n, ¬ e.file = FstEntryFile.ExternalFile n) :
    ∃ e2, FstEntry.guess_kind e = some e2 := by
  unfold FstEntry.guess_kind
  rw [if_neg (Nat.not_lt.mpr h3)]
  by_cases hp : FstEntry.extBytes e = pakExt
  · rw [if_pos hp]
    cases hfile : e.file with
    | Pak r => exact ⟨e, rfl⟩
    | ExternalFile n => exact absurd hfile (hext n)
    | Unknown r => exact ⟨_, rfl⟩
  · rw [if_neg hp]
    exact ⟨e, rfl⟩

/-- Witness for the amended C7 theorem at the concrete directory entry
eDir. -/
theorem guess_kind_on_folder_succeeds_witness :
    ∃ e2, FstEntry.guess_kind eDir = some e2 :=
  guess_kind_on_folder_succeeds eDir (by decide) (by decide)
    (fun n h => by cases h)

/-- C9: guess_kind fails precisely on a name shorter than three bytes
(where the extension indexing name[len - 3] is out of bounds) or on a pak
extension over an ExternalFile payload; in particular, when the name has
at least three bytes the indexing itself never fails. -/
theorem guess_kind_failure_iff (e : FstEntry) :
    FstEntry.guess_kind e = none ↔
      (e.name.length < 3 ∨
        (FstEntry.extBytes e = pakExt ∧ ∃ n, e.file = FstEntryFile.ExternalFile n)) := by
  unfold FstEntry.guess_kind
  by_cases h3 : e.name.length < 3
  · rw [if_pos h3]
    simp [h3]
  · rw [if_neg h3]
    by_cases hext : FstEntry.extBytes e = pakExt
    · rw [if_pos hext]
      cases hfile : e.file with
      | Pak r => simp [h3, hext, hfile]
      | ExternalFile n => simp [h3, hext, hfile]
      | Unknown r => simp [h3, hext, hfile]
    · rw [if_neg hext]
      simp [h3, hext]

lemma write_unfold (d : GcDisc) :
    GcDisc.write d =
      match (recalc d.file_system_table.fst_entries).find?
          (fun e => e.name == defaultDol) with
      | none => none
      | some e => some { d with
          header := { d.header with main_dol_offset := e.offset }
          file_system_table := { d.file_system_table with
            fst_entries := recalc d.file_system_table.fst_entries } } := rfl

/-- C8: GcDisc::write recalculates the layout and then stores the newly
planned offset of the first entry named default.dol into the header's
main_dol_offset field; when no entry of the table bears that name the
write fails fatally (the expect panic, modelled as none). -/
theorem write_sets_boot_offset (d : GcDisc) :
    (GcDisc.write d = none ↔
      ∀ e ∈ d.file_system_table.fst_entries, ¬ e.name = defaultDol) ∧
    (∀ p, (recalc d.file_system_table.fst_entries).find?
        (fun e => e.name == defaultDol) = some p →
      ∃ d2, GcDisc.write d = some d2 ∧
        d2.header.main_dol_offset = p.offset ∧
        d2.file_system_table.fst_entries = recalc d.file_system_table.fst_entries) := by
  constructor
  · rw [write_unfold]
    cases hf : (recalc d.file_system_table.fst_entries).find?
        (fun e => e.name == defaultDol) with
    | none =>
        simp only [List.find?_eq_none] at hf
        constructor
        · intro _
          rw [← recalc_name_forall d.file_system_table.fst_entries
            (fun nm => ¬ nm = defaultDol)]
          intro x hx
          have := hf x hx
          simpa using this
        · intro _
          rfl
    | some p =>
        constructor
        · intro h
          cases h
        · intro hall
          have hmem : p ∈ recalc d.file_system_table.fst_entries :=
            List.mem_of_find?_eq_some hf
          have hpn : p.name = defaultDol := by
            have := List.find?_some hf
            simpa using this
          have := (recalc_name_forall d.file_system_table.fst_entries
            (fun nm => ¬ nm = defaultDol)).mpr hall p hmem
          exact absurd hpn this
  · intro p hp
    rw [write_unfold, hp]
    exact ⟨_, rfl, rfl, rfl⟩

/-- Witness for the C8 theorem: on the concrete disc d8 the recalculated
default.dol entry is e8c, and write stores its new offset 1459978208 into
the header. -/
theorem write_sets_boot_offset_witness :
    (recalc d8.file_system_table.fst_entries).find?
        (fun e => e.name == defaultDol) = some e8c ∧
    ∃ d2, GcDisc.write d8 = some d2 ∧
      d2.header.main_dol_offset = e8c.offset ∧
      d2.file_system_table.fst_entries = recalc d8.file_system_table.fst_entries :=
  ⟨by decide, (write_sets_boot_offset d8).2 e8c (by decide)⟩
